import Mathlib

/-
Verification of the MAPINFO lexer/parser query layer (PsyDoom).

The C++ source represents parsed MAPINFO text as a flat arena of
`LinkedToken` values cross-referenced by two raw-pointer link chains
(`pNext` and `pNextData`), plus `Block` records that point into the arena.
The shallow embedding below models:
  * the source text buffer as a `List Char`, with `TextLoc.pStr` an offset
    into that buffer (the C++ field is a raw pointer into the buffer);
  * the arena as a `List LinkedToken`, with links as `Option Nat` indices
    (an absent link is `none`, mirroring a null pointer);
  * the C++ `float` token payload as an exact rational (`Rat`); the query
    layer only ever copies these values or substitutes the literals
    0 and 1, so no floating-point arithmetic is modelled;
  * the fatal-error path (`MapInfo::error`, which never returns) as the
    `Except TextLoc` error constructor carrying the cited location;
  * chain walks as fuel-bounded recursions with fuel `arena.length + 1`.
    A chain of pairwise-distinct in-range nodes has at most `arena.length`
    entries, so exhausting this fuel (result `none`) happens exactly when
    the walk revisits a node, i.e. exactly when the C++ loop would never
    terminate. A `some` result is the value the C++ code computes.
-/

namespace MapInfo

/-- The NUL character, used to model C-string terminator reads. -/
def nulChar : Char := Char.ofNat 0

/-- Model of C `toupper` restricted to ASCII, as used by
`Token::textEqualsIgnoreCase` (maps lowercase ASCII letters to uppercase
and leaves everything else unchanged). -/
def toUpperChar (c : Char) : Char :=
  if 'a' ≤ c ∧ c ≤ 'z' then Char.ofNat (c.toNat - 32) else c

/-- Reads a character of a C string: the head of the remaining characters,
or the NUL terminator once the list is exhausted. -/
def cRead (s : List Char) : Char :=
  match s with
  | [] => nulChar
  | c :: _ => c

/-- Mirrors C++ `MapInfo::TextLoc`: a location in the MAPINFO text.
`pStr` is a pointer to the text data at the location, modelled as an
offset into the source buffer. -/
structure TextLoc where
  line : Nat
  column : Nat
  pStr : Nat
deriving DecidableEq, Repr

/-- Mirrors C++ `MapInfo::TokenType`. -/
inductive TokenType where
  | Null
  | Identifier
  | String
  | Number
  | True
  | False
  | Equals
  | OpenBlock
  | CloseBlock
  | NextValue
deriving DecidableEq, Repr

/-- Mirrors C++ `MapInfo::Token`. The C++ `float number` payload is
modelled as an exact rational; the query layer only copies it. -/
structure Token where
  begin : TextLoc
  end_ : TextLoc
  type : TokenType
  number : Rat
deriving DecidableEq, Repr

/-- Mirrors `Token::size`: the number of characters in the token. -/
def Token.size (t : Token) : Nat :=
  t.end_.pStr - t.begin.pStr

/-- Mirrors `Token::textBegin`: start of the token's textual data
(skips the opening quote for `String` tokens). -/
def Token.textBegin (t : Token) : Nat :=
  if t.type = TokenType.String then t.begin.pStr + 1 else t.begin.pStr

/-- Mirrors `Token::textEnd`: one past the end of the token's textual data
(stops before the closing quote for `String` tokens). -/
def Token.textEnd (t : Token) : Nat :=
  if t.type = TokenType.String then t.end_.pStr - 1 else t.end_.pStr

/-- Mirrors `Token::text`: the characters in `[textBegin, textEnd)`, or an
empty view when the (possibly quote-stripped) range is inverted or empty. -/
def Token.text (buf : List Char) (t : Token) : List Char :=
  if t.textBegin < t.textEnd then (buf.drop t.textBegin).take (t.textEnd - t.textBegin)
  else []

/-- The raw lexed span of a token: the characters in `[begin, end)`. -/
def Token.rawSpan (buf : List Char) (t : Token) : List Char :=
  (buf.drop t.begin.pStr).take (t.end_.pStr - t.begin.pStr)

/-- The loop of `Token::textEqualsIgnoreCase`, walking the token text and a
NUL-terminated comparison string in lockstep: a mismatch of case-folded
characters fails; the walk stops at the token text's end (or on matching a
NUL) and the comparison succeeds only if the other string is also at its
terminator. -/
def strEqIgnoreCaseAux : List Char → List Char → Bool
  | [], pOther => decide (cRead pOther = nulChar)
  | c :: rest, pOther =>
    let c1 := toUpperChar c
    let c2 := toUpperChar (cRead pOther)
    if c1 = c2 then
      if c1 = nulChar then decide (cRead (pOther.drop 1) = nulChar)
      else strEqIgnoreCaseAux rest (pOther.drop 1)
    else false

/-- Mirrors `Token::textEqualsIgnoreCase`: case-insensitive comparison of
the token's text against a C string. -/
def Token.textEqualsIgnoreCase (buf : List Char) (t : Token) (pOther : List Char) : Bool :=
  strEqIgnoreCaseAux (t.text buf) pOther

/-- Mirrors C++ `MapInfo::LinkedToken`: a token plus the two intrusive
links (`pNext` for the header/value sibling chain, `pNextData` for a
value's data chain). Null pointers are `none`; non-null pointers are
indices into the document's token arena. -/
structure LinkedToken where
  token : Token
  pNext : Option Nat
  pNextData : Option Nat
deriving DecidableEq, Repr

/-- One pointer dereference-and-follow along a chain: from an optional
arena index, look the entry up and follow the given link field. -/
def chainStep (arena : List LinkedToken) (link : LinkedToken → Option Nat)
    (s : Option Nat) : Option Nat :=
  s.bind fun i => (arena[i]?).bind link

/-- `n`-fold iteration of `chainStep`: the position reached after
following the link `n` times. -/
def chainIter (arena : List LinkedToken) (link : LinkedToken → Option Nat) :
    Nat → Option Nat → Option Nat
  | 0, s => s
  | n + 1, s => chainIter arena link n (chainStep arena link s)

/-- The arena indices visited by a fuel-bounded chain walk, in visit order. -/
def chainNodes (arena : List LinkedToken) (link : LinkedToken → Option Nat) :
    Nat → Option Nat → List Nat
  | _, none => []
  | 0, some _ => []
  | fuel + 1, some i =>
    match arena[i]? with
    | none => []
    | some tok => i :: chainNodes arena link fuel (link tok)

/-- The arena entries visited by a fuel-bounded chain walk, in visit order. -/
def chainToks (arena : List LinkedToken) (link : LinkedToken → Option Nat) :
    Nat → Option Nat → List LinkedToken
  | _, none => []
  | 0, some _ => []
  | fuel + 1, some i =>
    match arena[i]? with
    | none => []
    | some tok => tok :: chainToks arena link fuel (link tok)

/-- Data-model invariant: every present link of every arena entry points
back into the arena (no dangling pointers). -/
def linksInRangeB (arena : List LinkedToken) (link : LinkedToken → Option Nat) : Bool :=
  arena.all fun tok =>
    match link tok with
    | none => true
    | some j => decide (j < arena.length)

/-- A chain start (an optional arena index) is either null or in range. -/
def startInRangeB (arena : List LinkedToken) (s : Option Nat) : Bool :=
  match s with
  | none => true
  | some i => decide (i < arena.length)

/-- Bounded acyclicity of the chain from `s`: within the first
`arena.length + 1` iterations the walk never revisits an arena entry.
(For an in-range chain this bound is enough to exclude all cycles.) -/
def acyclicB (arena : List LinkedToken) (link : LinkedToken → Option Nat)
    (s : Option Nat) : Bool :=
  (List.range (arena.length + 1)).all fun m =>
    (List.range (arena.length + 1)).all fun n =>
      match chainIter arena link m s, chainIter arena link n s with
      | some i, some j => decide (i ≠ j) || decide (m = n)
      | _, _ => true

/-- The loop of `LinkedToken::numTokensAhead` / `numDataTokensAhead`:
counts the entries reachable by repeatedly following `link`, starting at
`s`. `none` models a walk that never terminates (only possible on a
cyclic or dangling chain). -/
def countChainAux (arena : List LinkedToken) (link : LinkedToken → Option Nat) :
    Nat → Option Nat → Option Nat
  | _, none => some 0
  | 0, some _ => none
  | fuel + 1, some i =>
    (arena[i]?).bind fun tok => (countChainAux arena link fuel (link tok)).map (· + 1)

/-- Mirrors `LinkedToken::numTokensAhead`: how many tokens are ahead by
following `pNext`. -/
def LinkedToken.numTokensAhead (arena : List LinkedToken) (t : LinkedToken) : Option Nat :=
  countChainAux arena (fun tk => tk.pNext) (arena.length + 1) t.pNext

/-- Mirrors `LinkedToken::numDataTokensAhead`: how many tokens are ahead
by following `pNextData`. -/
def LinkedToken.numDataTokensAhead (arena : List LinkedToken) (t : LinkedToken) : Option Nat :=
  countChainAux arena (fun tk => tk.pNextData) (arena.length + 1) t.pNextData

/-- The loop of `Block::getHeaderTokenWithIndex`: walk the `pNext` chain
from `s` with a running counter `i`, returning the entry at which the
counter hits `index`, or the null result if the chain ends first. -/
def findIndexAux (arena : List LinkedToken) :
    Nat → Option Nat → Nat → Nat → Option (Option LinkedToken)
  | _, none, _, _ => some none
  | 0, some _, _, _ => none
  | fuel + 1, some c, i, index =>
    (arena[c]?).bind fun tok =>
      if i = index then some (some tok)
      else findIndexAux arena fuel tok.pNext (i + 1) index

/-- The loop of `Block::getValue`: walk the `pNext` chain from `s`,
returning the first entry whose token text case-insensitively equals
`name`, or the null result if the chain ends without a match. -/
def findValueAux (arena : List LinkedToken) (buf : List Char) (name : List Char) :
    Nat → Option Nat → Option (Option LinkedToken)
  | _, none => some none
  | 0, some _ => none
  | fuel + 1, some c =>
    (arena[c]?).bind fun tok =>
      if tok.token.textEqualsIgnoreCase buf name then some (some tok)
      else findValueAux arena buf name fuel tok.pNext

/-- Mirrors C++ `MapInfo::Block`: the type token, the optional first
header-chain entry and the optional first value-chain entry, all as
references into the token arena. -/
structure Block where
  pType : Nat
  pHeader : Option Nat
  pValues : Option Nat
deriving DecidableEq, Repr

/-- Mirrors `Block::getHeaderTokenCount`: `1 + pHeader->numTokensAhead()`
when a header chain exists, else `0`. -/
def Block.getHeaderTokenCount (arena : List LinkedToken) (b : Block) : Option Nat :=
  match b.pHeader with
  | none => some 0
  | some i =>
    (arena[i]?).bind fun tok =>
      (countChainAux arena (fun tk => tk.pNext) (arena.length + 1) tok.pNext).map (1 + ·)

/-- Mirrors `Block::getHeaderTokenWithIndex`: the header token at the given
zero-based index, or the null result if the index is invalid. -/
def Block.getHeaderTokenWithIndex (arena : List LinkedToken) (b : Block) (index : Nat) :
    Option (Option LinkedToken) :=
  findIndexAux arena (arena.length + 1) b.pHeader 0 index

/-- The location cited by the `error(const Block&)` overload: the begin
location of the block's type token, i.e. the start of the block. -/
def Block.startLoc (arena : List LinkedToken) (b : Block) : Option TextLoc :=
  (arena[b.pType]?).map fun tt => tt.token.begin

/-- Mirrors `Block::getRequiredHeaderToken`: the header token at the given
index, or a fatal error cited at the type token's end location if the
index is out of range. -/
def Block.getRequiredHeaderToken (arena : List LinkedToken) (b : Block) (index : Nat) :
    Option (Except TextLoc LinkedToken) :=
  (b.getHeaderTokenWithIndex arena index).bind fun r =>
    match r with
    | some tok => some (Except.ok tok)
    | none => (arena[b.pType]?).map fun tt => Except.error tt.token.end_

/-- Mirrors `Block::getRequiredHeaderNumber`: the numeric value of a
mandatory header token; booleans convert to 1 and 0, any other token kind
is a fatal error cited at the type token's end location. -/
def Block.getRequiredHeaderNumber (arena : List LinkedToken) (b : Block) (index : Nat) :
    Option (Except TextLoc Rat) :=
  (b.getRequiredHeaderToken arena index).bind fun r =>
    match r with
    | Except.error e => some (Except.error e)
    | Except.ok ltok =>
      match ltok.token.type with
      | TokenType.Number => some (Except.ok ltok.token.number)
      | TokenType.True => some (Except.ok 1)
      | TokenType.False => some (Except.ok 0)
      | _ => (arena[b.pType]?).map fun tt => Except.error tt.token.end_

/-- Model of the C++ `(int32_t)` cast applied to the `float` query results:
truncation toward zero (the cast's behavior on all in-range values). -/
def floatTruncToInt (q : Rat) : Int :=
  if 0 ≤ q then ⌊q⌋ else ⌈q⌉

/-- The unit in the last place (ulp) of the binary32 float nearest to a
natural number: 1 below `2 ^ 24`, doubling with each further binary order
of magnitude. The fuel bounds the recursion depth; 64 covers every
magnitude below `2 ^ 88`, far beyond the `int32_t` range. -/
def floatUnitAux : Nat → Nat → Nat
  | 0, _ => 1
  | fuel + 1, n => if n < 2 ^ 24 then 1 else 2 * floatUnitAux fuel (n / 2)

def floatUnit (n : Nat) : Nat := floatUnitAux 64 n

/-- Model of the C++ `(float)` conversion of an `int32_t`: the exact value
of the nearest IEEE-754 binary32 float (24-bit significand, ties rounded
to even), which for every `int32_t` magnitude is an integer. Integers of
magnitude below `2 ^ 24` convert exactly; larger ones are rounded to the
nearest multiple of their ulp. -/
def floatOfInt (d : Int) : Int :=
  let n := d.natAbs
  if n < 2 ^ 24 then d
  else
    let unit := floatUnit n
    let q := n / unit
    let r := n % unit
    let q2 :=
      if 2 * r < unit then q
      else if unit < 2 * r then q + 1
      else if q % 2 = 0 then q else q + 1
    if d < 0 then -((q2 * unit : Nat) : Int) else ((q2 * unit : Nat) : Int)

/-- Mirrors `Block::getRequiredHeaderInt`: `getRequiredHeaderNumber` cast
to an integer. -/
def Block.getRequiredHeaderInt (arena : List LinkedToken) (b : Block) (index : Nat) :
    Option (Except TextLoc Int) :=
  (b.getRequiredHeaderNumber arena index).map fun r => r.map floatTruncToInt

/-- Mirrors `Block::getRequiredHeaderSmallString`: the text of a mandatory
header token (the `SmallStrT(text.data(), text.size())` construction is
modelled as the text itself). -/
def Block.getRequiredHeaderSmallString (buf : List Char) (arena : List LinkedToken)
    (b : Block) (index : Nat) : Option (Except TextLoc (List Char)) :=
  (b.getRequiredHeaderToken arena index).map fun r =>
    match r with
    | Except.error e => Except.error e
    | Except.ok ltok => Except.ok (ltok.token.text buf)

/-- Mirrors `Block::getValue`: case-insensitive lookup of a value by name
in the block's value chain; the null result when absent. -/
def Block.getValue (buf : List Char) (arena : List LinkedToken) (b : Block)
    (name : List Char) : Option (Option LinkedToken) :=
  findValueAux arena buf name (arena.length + 1) b.pValues

/-- Mirrors `Block::getSingleNumberValue`: the first data token of the
named value coerced to a number (booleans to 1/0, wrong kinds to the
default), 1 for a data-less flag value, and the default when absent. -/
def Block.getSingleNumberValue (buf : List Char) (arena : List LinkedToken) (b : Block)
    (name : List Char) (defaultValue : Rat) : Option Rat :=
  (b.getValue buf arena name).bind fun pToken =>
    match pToken with
    | some vt =>
      match vt.pNextData with
      | some j =>
        (arena[j]?).map fun pDataToken =>
          match pDataToken.token.type with
          | TokenType.Number => pDataToken.token.number
          | TokenType.True => 1
          | TokenType.False => 0
          | _ => defaultValue
      | none => some 1
    | none => some defaultValue

/-- Mirrors `Block::getSingleIntValue`:
`(int32_t) getSingleNumberValue(name, (float) defaultValue)`. The integer
default is rounded through `float` (see `floatOfInt`) before the lookup,
exactly as the C++ argument conversion does. -/
def Block.getSingleIntValue (buf : List Char) (arena : List LinkedToken) (b : Block)
    (name : List Char) (defaultValue : Int) : Option Int :=
  (b.getSingleNumberValue buf arena name ((floatOfInt defaultValue : Int) : Rat)).map
    floatTruncToInt

/-- Mirrors `Block::getSingleSmallStringValue`: the text of the first data
token of the named value, or the default when the value is absent or has
no data chain. -/
def Block.getSingleSmallStringValue (buf : List Char) (arena : List LinkedToken) (b : Block)
    (name : List Char) (defaultValue : List Char) : Option (List Char) :=
  (b.getValue buf arena name).bind fun pToken =>
    match pToken with
    | some vt =>
      match vt.pNextData with
      | some j => (arena[j]?).map fun pDataToken => pDataToken.token.text buf
      | none => some defaultValue
    | none => some defaultValue

/-- The header chain of a block: the arena entries reached from `pHeader`
by following `pNext` (with enough fuel for any acyclic chain). -/
def Block.headerChain (arena : List LinkedToken) (b : Block) : List LinkedToken :=
  chainToks arena (fun tk => tk.pNext) (arena.length + 1) b.pHeader

/-- Builds a sample token on line 0 spanning columns `[b, e)`, for the
concrete witness documents below. -/
def mkTok (b e : Nat) (ty : TokenType) (num : Rat) : Token :=
  { begin := ⟨0, b, b⟩, end_ := ⟨0, e, e⟩, type := ty, number := num }

/-- Sample document for claim C1, modelling the parse of `map { X = 5 }`:
a type token, a value-name token `X` and its single data token `5` of kind
`Number`. -/
def c1buf : List Char := ['m', 'a', 'p', ' ', 'X', ' ', '=', ' ', '5']

def c1arena : List LinkedToken :=
  [ { token := mkTok 0 3 TokenType.Identifier 0, pNext := none, pNextData := none },
    { token := mkTok 4 5 TokenType.Identifier 0, pNext := none, pNextData := some 2 },
    { token := mkTok 8 9 TokenType.Number 5, pNext := none, pNextData := none } ]

def c1blk : Block := { pType := 0, pHeader := none, pValues := some 1 }

/-- Sample document for claim C2: a single type token `map` spanning
columns 0-3 with no header tokens at all. -/
def c2arena : List LinkedToken :=
  [ { token := mkTok 0 3 TokenType.Identifier 0, pNext := none, pNextData := none } ]

def c2blk : Block := { pType := 0, pHeader := none, pValues := none }

/-- Sample document for claim C3, modelling the parse of `map { Flag }`:
a bare flag value with no data chain. -/
def c3buf : List Char := ['m', 'a', 'p', ' ', 'F', 'l', 'a', 'g']

def c3arena : List LinkedToken :=
  [ { token := mkTok 0 3 TokenType.Identifier 0, pNext := none, pNextData := none },
    { token := mkTok 4 8 TokenType.Identifier 0, pNext := none, pNextData := none } ]

def c3blk : Block := { pType := 0, pHeader := none, pValues := some 1 }

/-- Sample document for claim C4, modelling the header of
`map 5 "E1M1" true {}`: a Number, a String and a BooleanTrue header token. -/
def c4buf : List Char :=
  ['m', 'a', 'p', ' ', '5', ' ', '\x22', 'E', '1', 'M', '1', '\x22', ' ', 't', 'r', 'u', 'e']

def c4arena : List LinkedToken :=
  [ { token := mkTok 0 3 TokenType.Identifier 0, pNext := none, pNextData := none },
    { token := mkTok 4 5 TokenType.Number 5, pNext := some 2, pNextData := none },
    { token := mkTok 6 12 TokenType.String 0, pNext := some 3, pNextData := none },
    { token := mkTok 13 17 TokenType.True 0, pNext := none, pNextData := none } ]

def c4blk : Block := { pType := 0, pHeader := some 1, pValues := none }

/-- Sample document for claim C7, modelling the parse of
`map { X = 3, Y }`: a value with a two-entry data chain whose first entry
is the Number token `3`. -/
def c7buf : List Char := ['m', 'a', 'p', ' ', 'X', ' ', '=', ' ', '3', ' ', ',', ' ', 'Y']

def c7arena : List LinkedToken :=
  [ { token := mkTok 0 3 TokenType.Identifier 0, pNext := none, pNextData := none },
    { token := mkTok 4 5 TokenType.Identifier 0, pNext := none, pNextData := some 2 },
    { token := mkTok 8 9 TokenType.Number 3, pNext := none, pNextData := some 3 },
    { token := mkTok 12 13 TokenType.Identifier 0, pNext := none, pNextData := none } ]

def c7blk : Block := { pType := 0, pHeader := none, pValues := some 1 }

/-- The first data token of the C7 sample document with its data link cut,
turning the two-entry data chain into a single-entry chain. -/
def c7dtTrunc : LinkedToken :=
  { token := mkTok 8 9 TokenType.Number 3, pNext := none, pNextData := none }

/-- Sample document for claim C8: a block with a two-token header chain. -/
def c8arena : List LinkedToken :=
  [ { token := mkTok 0 3 TokenType.Identifier 0, pNext := none, pNextData := none },
    { token := mkTok 4 5 TokenType.Number 1, pNext := some 2, pNextData := none },
    { token := mkTok 6 7 TokenType.Number 2, pNext := none, pNextData := none } ]

def c8blk : Block := { pType := 0, pHeader := some 1, pValues := none }

/-- Sample document for claim C9: token 0 heads both a two-entry `pNext`
chain (0, 1) and a two-entry `pNextData` chain (0, 2). -/
def c9buf : List Char := ['m', 'a', 'p']

def c9arena : List LinkedToken :=
  [ { token := mkTok 0 3 TokenType.Identifier 0, pNext := some 1, pNextData := some 2 },
    { token := mkTok 0 1 TokenType.Identifier 0, pNext := none, pNextData := none },
    { token := mkTok 1 2 TokenType.Number 7, pNext := none, pNextData := none } ]

def c9blk : Block := { pType := 0, pHeader := some 0, pValues := some 0 }

/-- The type token entry of the C2 sample document. -/
def c2tt : LinkedToken :=
  { token := mkTok 0 3 TokenType.Identifier 0, pNext := none, pNextData := none }

/-- The flag value-name entry of the C3 sample document. -/
def c3vt : LinkedToken :=
  { token := mkTok 4 8 TokenType.Identifier 0, pNext := none, pNextData := none }

/-- The value-name entry of the C7 sample document. -/
def c7vt : LinkedToken :=
  { token := mkTok 4 5 TokenType.Identifier 0, pNext := none, pNextData := some 2 }

/-- The first data-chain entry of the C7 sample document. -/
def c7dt : LinkedToken :=
  { token := mkTok 8 9 TokenType.Number 3, pNext := none, pNextData := some 3 }

/-- The head entry of both sample chains of the C9 document. -/
def c9tok : LinkedToken :=
  { token := mkTok 0 3 TokenType.Identifier 0, pNext := some 1, pNextData := some 2 }

theorem linksInRange_spec {arena : List LinkedToken} {link : LinkedToken → Option Nat}
    (hwf : linksInRangeB arena link = true) {tok : LinkedToken} {j : Nat}
    (htok : tok ∈ arena) (hlink : link tok = some j) : j < arena.length := by
  rw [linksInRangeB, List.all_eq_true] at hwf
  have h2 := hwf tok htok
  simp only [hlink, decide_eq_true_eq] at h2
  exact h2

theorem startInRange_spec {arena : List LinkedToken} {s : Option Nat}
    (hs : startInRangeB arena s = true) {i : Nat} (h : s = some i) : i < arena.length := by
  subst h
  simpa [startInRangeB] using hs

theorem acyclic_spec {arena : List LinkedToken} {link : LinkedToken → Option Nat}
    {s : Option Nat} (hac : acyclicB arena link s = true) {m n i : Nat}
    (hm : m ≤ arena.length) (hn : n ≤ arena.length)
    (h1 : chainIter arena link m s = some i) (h2 : chainIter arena link n s = some i) :
    m = n := by
  rw [acyclicB, List.all_eq_true] at hac
  have h3 := hac m (List.mem_range.mpr (by omega))
  rw [List.all_eq_true] at h3
  have h4 := h3 n (List.mem_range.mpr (by omega))
  simp only [h1, h2, Bool.or_eq_true, decide_eq_true_eq, ne_eq] at h4
  rcases h4 with h | h
  · exact absurd trivial h
  · exact h

theorem chainIter_base {arena : List LinkedToken} {link : LinkedToken → Option Nat}
    (s : Option Nat) : chainIter arena link 0 s = s := rfl

theorem chainIter_succ {arena : List LinkedToken} {link : LinkedToken → Option Nat}
    (n : Nat) (s : Option Nat) :
    chainIter arena link (n + 1) s = chainIter arena link n (chainStep arena link s) := rfl

theorem chainStep_inRange {arena : List LinkedToken} {link : LinkedToken → Option Nat}
    (hwf : linksInRangeB arena link = true) {s : Option Nat}
    (hs : ∀ i, s = some i → i < arena.length) :
    ∀ j, chainStep arena link s = some j → j < arena.length := by
  intro j hj
  cases s with
  | none => simp [chainStep] at hj
  | some i =>
    simp only [chainStep, Option.some_bind] at hj
    cases hA : arena[i]? with
    | none => rw [hA] at hj; simp at hj
    | some tok =>
      rw [hA] at hj
      simp only [Option.some_bind] at hj
      obtain ⟨hlt, hEq⟩ := List.getElem?_eq_some_iff.mp hA
      exact linksInRange_spec hwf (hEq ▸ List.getElem_mem hlt) hj

theorem chainIter_inRange {arena : List LinkedToken} {link : LinkedToken → Option Nat}
    (hwf : linksInRangeB arena link = true) :
    ∀ (n : Nat) (s : Option Nat), (∀ i, s = some i → i < arena.length) →
    ∀ v, chainIter arena link n s = some v → v < arena.length := by
  intro n
  induction n with
  | zero => intro s hs v hv; exact hs v hv
  | succ n ih =>
    intro s hs v hv
    rw [chainIter_succ] at hv
    exact ih _ (chainStep_inRange hwf hs) v hv

theorem chain_reaches_none {arena : List LinkedToken} {link : LinkedToken → Option Nat}
    {s : Option Nat} (hwf : linksInRangeB arena link = true)
    (hs : startInRangeB arena s = true) (hac : acyclicB arena link s = true) :
    ∃ n, n ≤ arena.length ∧ chainIter arena link n s = none := by
  cases s with
  | none => exact ⟨0, Nat.zero_le _, rfl⟩
  | some i =>
    by_contra hcon
    push_neg at hcon
    have hsP : ∀ j, (some i : Option Nat) = some j → j < arena.length := by
      intro j hj
      cases hj
      exact startInRange_spec hs rfl
    have hIsSome : ∀ k : Fin (arena.length + 1),
        (chainIter arena link k (some i)).isSome = true := by
      intro k
      exact Option.ne_none_iff_isSome.mp (hcon k (Nat.lt_succ_iff.mp k.2))
    let f : Fin (arena.length + 1) → Fin arena.length := fun k =>
      ⟨(chainIter arena link k (some i)).get (hIsSome k),
        chainIter_inRange hwf k (some i) hsP _ (Option.some_get (hIsSome k)).symm⟩
    have hinj : Function.Injective f := by
      intro a b hab
      have hval : (chainIter arena link a (some i)).get (hIsSome a)
          = (chainIter arena link b (some i)).get (hIsSome b) := congrArg Fin.val hab
      have ha : chainIter arena link a (some i)
          = some ((chainIter arena link a (some i)).get (hIsSome a)) :=
        (Option.some_get (hIsSome a)).symm
      have hb : chainIter arena link b (some i)
          = some ((chainIter arena link a (some i)).get (hIsSome a)) := by
        rw [hval]
        exact (Option.some_get (hIsSome b)).symm
      exact Fin.ext (acyclic_spec hac (Nat.lt_succ_iff.mp a.2) (Nat.lt_succ_iff.mp b.2) ha hb)
    have hcard := Fintype.card_le_of_injective f hinj
    simp only [Fintype.card_fin] at hcard
    omega

theorem countChainAux_eq {arena : List LinkedToken} {link : LinkedToken → Option Nat}
    (hwf : linksInRangeB arena link = true) :
    ∀ (fuel : Nat) (s : Option Nat) (n : Nat), (∀ i, s = some i → i < arena.length) →
    n ≤ fuel → chainIter arena link n s = none →
    countChainAux arena link fuel s = some ((chainToks arena link fuel s).length) := by
  intro fuel
  induction fuel with
  | zero =>
    intro s n hs hn hiter
    obtain rfl : n = 0 := Nat.le_zero.mp hn
    have hnone : s = none := hiter
    subst hnone
    rfl
  | succ fuel ih =>
    intro s n hs hn hiter
    cases s with
    | none => rfl
    | some i =>
      have hi : i < arena.length := hs i rfl
      have hA : arena[i]? = some arena[i] := List.getElem?_eq_getElem hi
      cases n with
      | zero => exact absurd hiter (by simp [chainIter_base])
      | succ n =>
        have hstep : chainStep arena link (some i) = link arena[i] := by
          simp [chainStep, hA]
        have hiter' : chainIter arena link n (link arena[i]) = none := by
          rw [chainIter_succ, hstep] at hiter
          exact hiter
        have hs' : ∀ j, link arena[i] = some j → j < arena.length :=
          fun j hj => linksInRange_spec hwf (List.getElem_mem hi) hj
        have hrec := ih (link arena[i]) n hs' (by omega) hiter'
        simp only [countChainAux, chainToks, hA, Option.some_bind, hrec, List.length_cons]
        rfl

theorem chainToks_fuel_eq {arena : List LinkedToken} {link : LinkedToken → Option Nat}
    (hwf : linksInRangeB arena link = true) :
    ∀ (n fuel1 fuel2 : Nat) (s : Option Nat), (∀ i, s = some i → i < arena.length) →
    n ≤ fuel1 → n ≤ fuel2 → chainIter arena link n s = none →
    chainToks arena link fuel1 s = chainToks arena link fuel2 s := by
  intro n
  induction n with
  | zero =>
    intro fuel1 fuel2 s hs h1 h2 hiter
    have hnone : s = none := hiter
    subst hnone
    cases fuel1 <;> cases fuel2 <;> rfl
  | succ n ih =>
    intro fuel1 fuel2 s hs h1 h2 hiter
    cases s with
    | none => cases fuel1 <;> cases fuel2 <;> rfl
    | some i =>
      obtain ⟨f1, rfl⟩ : ∃ f1', fuel1 = f1' + 1 := ⟨fuel1 - 1, by omega⟩
      obtain ⟨f2, rfl⟩ : ∃ f2', fuel2 = f2' + 1 := ⟨fuel2 - 1, by omega⟩
      have hi : i < arena.length := hs i rfl
      have hA : arena[i]? = some arena[i] := List.getElem?_eq_getElem hi
      have hstep : chainStep arena link (some i) = link arena[i] := by
        simp [chainStep, hA]
      have hiter' : chainIter arena link n (link arena[i]) = none := by
        rw [chainIter_succ, hstep] at hiter
        exact hiter
      have hs' : ∀ j, link arena[i] = some j → j < arena.length :=
        fun j hj => linksInRange_spec hwf (List.getElem_mem hi) hj
      simp only [chainToks, hA]
      rw [ih f1 f2 (link arena[i]) hs' (by omega) (by omega) hiter']

theorem chainNodes_getElem {arena : List LinkedToken} {link : LinkedToken → Option Nat}
    (hwf : linksInRangeB arena link = true) :
    ∀ (fuel : Nat) (s : Option Nat), (∀ i, s = some i → i < arena.length) →
    ∀ (k : Nat) (hk : k < (chainNodes arena link fuel s).length),
    chainIter arena link k s = some ((chainNodes arena link fuel s).get ⟨k, hk⟩) := by
  intro fuel
  induction fuel with
  | zero =>
    intro s hs k hk
    exfalso
    cases s <;> simp [chainNodes] at hk
  | succ fuel ih =>
    intro s hs k hk
    cases s with
    | none => exfalso; simp [chainNodes] at hk
    | some i =>
      have hi : i < arena.length := hs i rfl
      have hA : arena[i]? = some arena[i] := List.getElem?_eq_getElem hi
      have hs' : ∀ j, link arena[i] = some j → j < arena.length :=
        fun j hj => linksInRange_spec hwf (List.getElem_mem hi) hj
      cases k with
      | zero => simp [chainNodes, hA, chainIter_base]
      | succ k =>
        have hk' : k < (chainNodes arena link fuel (link arena[i])).length := by
          simpa [chainNodes, hA] using hk
        have hrec := ih (link arena[i]) hs' k hk'
        have hstep : chainStep arena link (some i) = link arena[i] := by
          simp [chainStep, hA]
        rw [chainIter_succ, hstep, hrec]
        congr 1
        simp [chainNodes, hA]

theorem chainNodes_length_le {arena : List LinkedToken} {link : LinkedToken → Option Nat} :
    ∀ (fuel : Nat) (s : Option Nat), (chainNodes arena link fuel s).length ≤ fuel := by
  intro fuel
  induction fuel with
  | zero => intro s; cases s <;> simp [chainNodes]
  | succ fuel ih =>
    intro s
    cases s with
    | none => simp [chainNodes]
    | some i =>
      cases hA : arena[i]? with
      | none => simp [chainNodes, hA]
      | some tok =>
        have := ih (link tok)
        simp only [chainNodes, hA, List.length_cons]
        omega

theorem chainNodes_nodup {arena : List LinkedToken} {link : LinkedToken → Option Nat}
    {s : Option Nat} (hwf : linksInRangeB arena link = true)
    (hs : startInRangeB arena s = true) (hac : acyclicB arena link s = true) :
    (chainNodes arena link (arena.length + 1) s).Nodup := by
  rw [List.nodup_iff_injective_get]
  intro a b hab
  have hsP : ∀ i, s = some i → i < arena.length := fun i h => startInRange_spec hs h
  have h1 := chainNodes_getElem hwf (arena.length + 1) s hsP a a.2
  have h2 := chainNodes_getElem hwf (arena.length + 1) s hsP b b.2
  rw [hab] at h1
  have hlen := @chainNodes_length_le arena link (arena.length + 1) s
  have ha' : (a : Nat) ≤ arena.length := by have := a.2; omega
  have hb' : (b : Nat) ≤ arena.length := by have := b.2; omega
  exact Fin.ext (acyclic_spec hac ha' hb' h1 h2)

theorem findIndexAux_eq {arena : List LinkedToken}
    (hwf : linksInRangeB arena (fun tk => tk.pNext) = true) :
    ∀ (fuel : Nat) (s : Option Nat) (n : Nat), (∀ i, s = some i → i < arena.length) →
    n ≤ fuel → chainIter arena (fun tk => tk.pNext) n s = none →
    ∀ (i0 index : Nat), findIndexAux arena fuel s i0 index =
      some (if index < i0 then none
            else (chainToks arena (fun tk => tk.pNext) fuel s)[index - i0]?) := by
  intro fuel
  induction fuel with
  | zero =>
    intro s n hs hn hiter i0 index
    obtain rfl : n = 0 := Nat.le_zero.mp hn
    have hnone : s = none := hiter
    subst hnone
    simp [findIndexAux, chainToks, ite_self]
  | succ fuel ih =>
    intro s n hs hn hiter i0 index
    cases s with
    | none => simp [findIndexAux, chainToks, ite_self]
    | some c =>
      have hc : c < arena.length := hs c rfl
      have hA : arena[c]? = some arena[c] := List.getElem?_eq_getElem hc
      cases n with
      | zero => exact absurd hiter (by simp [chainIter_base])
      | succ n =>
        have hstep : chainStep arena (fun tk => tk.pNext) (some c) = arena[c].pNext := by
          simp [chainStep, hA]
        have hiter' : chainIter arena (fun tk => tk.pNext) n (arena[c].pNext) = none := by
          rw [chainIter_succ, hstep] at hiter
          exact hiter
        have hs' : ∀ j, arena[c].pNext = some j → j < arena.length :=
          fun j hj => linksInRange_spec hwf (List.getElem_mem hc) hj
        by_cases hidx : i0 = index
        · subst hidx
          simp [findIndexAux, chainToks, hA]
        · have hrec := ih (arena[c].pNext) n hs' (by omega) hiter' (i0 + 1) index
          simp only [findIndexAux, hA, Option.some_bind, if_neg hidx]
          rw [hrec]
          simp only [chainToks, hA]
          congr 1
          rcases Nat.lt_trichotomy index i0 with h | h | h
          · rw [if_pos h, if_pos (by omega)]
          · exact absurd h.symm hidx
          · rw [if_neg (by omega), if_neg (by omega)]
            have hsub : index - i0 = (index - (i0 + 1)) + 1 := by omega
            rw [hsub, List.getElem?_cons_succ]

theorem findValueAux_eq {arena : List LinkedToken} {buf name : List Char}
    (hwf : linksInRangeB arena (fun tk => tk.pNext) = true) :
    ∀ (fuel : Nat) (s : Option Nat) (n : Nat), (∀ i, s = some i → i < arena.length) →
    n ≤ fuel → chainIter arena (fun tk => tk.pNext) n s = none →
    findValueAux arena buf name fuel s =
      some ((chainToks arena (fun tk => tk.pNext) fuel s).find?
        (fun tok => tok.token.textEqualsIgnoreCase buf name)) := by
  intro fuel
  induction fuel with
  | zero =>
    intro s n hs hn hiter
    obtain rfl : n = 0 := Nat.le_zero.mp hn
    have hnone : s = none := hiter
    subst hnone
    rfl
  | succ fuel ih =>
    intro s n hs hn hiter
    cases s with
    | none => rfl
    | some c =>
      have hc : c < arena.length := hs c rfl
      have hA : arena[c]? = some arena[c] := List.getElem?_eq_getElem hc
      cases n with
      | zero => exact absurd hiter (by simp [chainIter_base])
      | succ n =>
        have hstep : chainStep arena (fun tk => tk.pNext) (some c) = arena[c].pNext := by
          simp [chainStep, hA]
        have hiter' : chainIter arena (fun tk => tk.pNext) n (arena[c].pNext) = none := by
          rw [chainIter_succ, hstep] at hiter
          exact hiter
        have hs' : ∀ j, arena[c].pNext = some j → j < arena.length :=
          fun j hj => linksInRange_spec hwf (List.getElem_mem hc) hj
        by_cases hp : arena[c].token.textEqualsIgnoreCase buf name = true
        · simp [findValueAux, chainToks, hA, hp, List.find?_cons_of_pos]
        · have hrec := ih (arena[c].pNext) n hs' (by omega) hiter'
          have hp' : ¬ arena[c].token.textEqualsIgnoreCase buf name = true := hp
          simp only [findValueAux, hA, Option.some_bind, if_neg hp', chainToks]
          rw [hrec]
          congr 1
          rw [List.find?_cons_of_neg]
          simpa using hp'

theorem getHeaderTokenWithIndex_eq {arena : List LinkedToken} {b : Block}
    (hwf : linksInRangeB arena (fun tk => tk.pNext) = true)
    (hs : startInRangeB arena b.pHeader = true)
    (hac : acyclicB arena (fun tk => tk.pNext) b.pHeader = true) (index : Nat) :
    b.getHeaderTokenWithIndex arena index = some ((b.headerChain arena)[index]?) := by
  obtain ⟨n, hn, hiter⟩ := chain_reaches_none hwf hs hac
  have h := findIndexAux_eq hwf (arena.length + 1) b.pHeader n
    (fun i hi => startInRange_spec hs hi) (by omega) hiter 0 index
  rw [Block.getHeaderTokenWithIndex, h, Block.headerChain]
  simp

theorem getHeaderTokenCount_eq {arena : List LinkedToken} {b : Block}
    (hwf : linksInRangeB arena (fun tk => tk.pNext) = true)
    (hs : startInRangeB arena b.pHeader = true)
    (hac : acyclicB arena (fun tk => tk.pNext) b.pHeader = true) :
    b.getHeaderTokenCount arena = some (b.headerChain arena).length := by
  obtain ⟨n, hn, hiter⟩ := chain_reaches_none hwf hs hac
  cases hph : b.pHeader with
  | none =>
    rw [hph] at hiter
    simp [Block.getHeaderTokenCount, Block.headerChain, hph, chainToks]
  | some p =>
    rw [hph] at hiter
    have hp : p < arena.length := startInRange_spec hs hph
    have hA : arena[p]? = some arena[p] := List.getElem?_eq_getElem hp
    cases n with
    | zero => exact absurd hiter (by simp [chainIter_base])
    | succ n =>
      have hstep : chainStep arena (fun tk => tk.pNext) (some p) = arena[p].pNext := by
        simp [chainStep, hA]
      have hiter' : chainIter arena (fun tk => tk.pNext) n (arena[p].pNext) = none := by
        rw [chainIter_succ, hstep] at hiter
        exact hiter
      have hs' : ∀ j, arena[p].pNext = some j → j < arena.length :=
        fun j hj => linksInRange_spec hwf (List.getElem_mem hp) hj
      have hcount := countChainAux_eq hwf (arena.length + 1) (arena[p].pNext) n hs'
        (by omega) hiter'
      have htoks := chainToks_fuel_eq hwf n arena.length (arena.length + 1)
        (arena[p].pNext) hs' (by omega) (by omega) hiter'
      simp only [Block.getHeaderTokenCount, hph, hA, Option.some_bind, hcount]
      rw [Block.headerChain, hph]
      simp only [chainToks, hA, List.length_cons, htoks]
      rw [Option.map_some']
      rw [Nat.add_comm]

theorem getValue_eq {arena : List LinkedToken} {buf name : List Char} {b : Block}
    (hwf : linksInRangeB arena (fun tk => tk.pNext) = true)
    (hs : startInRangeB arena b.pValues = true)
    (hac : acyclicB arena (fun tk => tk.pNext) b.pValues = true) :
    b.getValue buf arena name =
      some ((chainToks arena (fun tk => tk.pNext) (arena.length + 1) b.pValues).find?
        (fun tok => tok.token.textEqualsIgnoreCase buf name)) := by
  obtain ⟨n, hn, hiter⟩ := chain_reaches_none hwf hs hac
  exact findValueAux_eq hwf (arena.length + 1) b.pValues n
    (fun i hi => startInRange_spec hs hi) (by omega) hiter

theorem floatTruncToInt_intCast (d : Int) : floatTruncToInt (d : Rat) = d := by
  unfold floatTruncToInt
  split <;> simp

theorem floatOfInt_eq_self {d : Int} (h : d.natAbs < 2 ^ 24) : floatOfInt d = d := by
  simp only [floatOfInt]
  rw [if_pos h]

theorem toNat_ofNat_valid (n : Nat) (h : n.isValidChar) : (Char.ofNat n).toNat = n := by
  simp [Char.ofNat, dif_pos h, Char.ofNatAux, Char.toNat, UInt32.toNat]

theorem toUpperChar_ne_nul {c : Char} (hc : c ≠ nulChar) : toUpperChar c ≠ nulChar := by
  unfold toUpperChar
  split
  · rename_i h
    have h97 : 97 ≤ c.toNat := by
      have h1 := h.1
      rw [Char.le_def, UInt32.le_def, BitVec.le_def] at h1
      have hval : ('a').val.toBitVec.toNat = 97 := by decide
      rw [hval] at h1
      exact h1
    have hvalid : (c.toNat - 32).isValidChar := by
      have h122 : c.toNat ≤ 122 := by
        have h2 := h.2
        rw [Char.le_def, UInt32.le_def, BitVec.le_def] at h2
        have hval : ('z').val.toBitVec.toNat = 122 := by decide
        rw [hval] at h2
        exact h2
      exact Or.inl (by omega)
    intro hEq
    have : (Char.ofNat (c.toNat - 32)).toNat = nulChar.toNat := by rw [hEq]
    rw [toNat_ofNat_valid _ hvalid] at this
    have hnul : nulChar.toNat = 0 := by decide
    omega
  · exact hc

theorem toUpperChar_nulChar : toUpperChar nulChar = nulChar := by decide

theorem strEqIgnoreCaseAux_iff (a b : List Char) (ha : nulChar ∉ a) (hb : nulChar ∉ b) :
    strEqIgnoreCaseAux a b = true ↔ a.map toUpperChar = b.map toUpperChar := by
  induction a generalizing b with
  | nil =>
    cases b with
    | nil => simp [strEqIgnoreCaseAux, cRead]
    | cons c cs =>
      have hc : c ≠ nulChar := fun h => hb (h ▸ List.mem_cons_self _ _)
      simp [strEqIgnoreCaseAux, cRead, hc]
  | cons x xs ih =>
    have hx : x ≠ nulChar := fun h => ha (h ▸ List.mem_cons_self _ _)
    have hxu : toUpperChar x ≠ nulChar := toUpperChar_ne_nul hx
    cases b with
    | nil =>
      have : ¬ toUpperChar x = toUpperChar nulChar := by rw [toUpperChar_nulChar]; exact hxu
      simp [strEqIgnoreCaseAux, cRead, this]
    | cons y ys =>
      have hy : y ≠ nulChar := fun h => hb (h ▸ List.mem_cons_self _ _)
      have ha' : nulChar ∉ xs := fun h => ha (List.mem_cons_of_mem _ h)
      have hb' : nulChar ∉ ys := fun h => hb (List.mem_cons_of_mem _ h)
      by_cases hcc : toUpperChar x = toUpperChar y
      · simp only [strEqIgnoreCaseAux, cRead, if_pos hcc, if_neg hxu, List.drop_one,
          List.tail_cons, List.map_cons, List.cons.injEq]
        rw [ih ys ha' hb']
        exact (and_iff_right hcc).symm
      · simp only [strEqIgnoreCaseAux, cRead, if_neg hcc, List.map_cons, List.cons.injEq]
        constructor
        · intro h; cases h
        · intro h; exact absurd h.1 hcc

/-- Claim C5: `textEqualsIgnoreCase` returns true exactly when the token's
text and the comparison string have the same characters up to ASCII case
folding, and two texts of different length are never equal. (The NUL-free
hypotheses say the token text and the comparison C string contain no NUL
terminator characters.) -/
theorem c5_textEqualsIgnoreCase_case_fold (buf : List Char) (t : Token) (o : List Char)
    (ht : nulChar ∉ t.text buf) (ho : nulChar ∉ o) :
    (t.textEqualsIgnoreCase buf o = true ↔
      (t.text buf).map toUpperChar = o.map toUpperChar)
    ∧ ((t.text buf).length ≠ o.length → t.textEqualsIgnoreCase buf o = false) := by
  have hiff := strEqIgnoreCaseAux_iff (t.text buf) o ht ho
  refine ⟨hiff, fun hlen => ?_⟩
  rcases h : t.textEqualsIgnoreCase buf o with _ | _
  · rfl
  · exfalso
    have := hiff.mp h
    have : ((t.text buf).map toUpperChar).length = (o.map toUpperChar).length := by rw [this]
    simp only [List.length_map] at this
    exact hlen this

/-- Claim C5 witness: over the buffer `Map`, an identifier token spanning
the whole buffer case-insensitively equals `MAP` and differs from `MAPS`. -/
theorem c5_witness :
    (Token.textEqualsIgnoreCase ['M', 'a', 'p']
      { begin := ⟨0, 0, 0⟩, end_ := ⟨0, 3, 3⟩, type := TokenType.Identifier, number := 0 }
      ['M', 'A', 'P'] = true)
    ∧ (Token.textEqualsIgnoreCase ['M', 'a', 'p']
      { begin := ⟨0, 0, 0⟩, end_ := ⟨0, 3, 3⟩, type := TokenType.Identifier, number := 0 }
      ['M', 'A', 'P', 'S'] = false) := by
  refine ⟨?_, ?_⟩
  · exact (c5_textEqualsIgnoreCase_case_fold ['M', 'a', 'p']
      { begin := ⟨0, 0, 0⟩, end_ := ⟨0, 3, 3⟩, type := TokenType.Identifier, number := 0 }
      ['M', 'A', 'P'] (by decide) (by decide)).1.mpr (by decide)
  · exact (c5_textEqualsIgnoreCase_case_fold ['M', 'a', 'p']
      { begin := ⟨0, 0, 0⟩, end_ := ⟨0, 3, 3⟩, type := TokenType.Identifier, number := 0 }
      ['M', 'A', 'P', 'S'] (by decide) (by decide)).2 (by decide)

/-- Claim C6: `text()` of a `String` token is the raw lexed span with the
first and last character (the delimiting double quotes) removed; for every
other token kind `text()` is exactly the raw lexed span. (The side
conditions for the `String` clause say the stored span really holds the
two quote characters and lies inside the buffer.) -/
theorem c6_text_strips_quotes (buf : List Char) (t : Token) :
    (t.type = TokenType.String → t.begin.pStr + 2 ≤ t.end_.pStr →
      t.end_.pStr ≤ buf.length →
      t.text buf = ((t.rawSpan buf).drop 1).dropLast)
    ∧ (t.type ≠ TokenType.String → t.text buf = t.rawSpan buf) := by
  constructor
  · intro hty hspan hbuf
    have hb := t.begin.pStr
    have hLHS : t.text buf =
        (buf.drop (t.begin.pStr + 1)).take (t.end_.pStr - t.begin.pStr - 2) := by
      rw [Token.text, Token.textBegin, Token.textEnd, if_pos hty, if_pos hty]
      by_cases hlt : t.begin.pStr + 1 < t.end_.pStr - 1
      · rw [if_pos hlt]
        congr 1
        omega
      · rw [if_neg hlt]
        have : t.end_.pStr - t.begin.pStr - 2 = 0 := by omega
        rw [this, List.take_zero]
    rw [hLHS, Token.rawSpan]
    rw [List.drop_take]
    rw [List.drop_drop]
    have hlen : ((buf.drop (t.begin.pStr + 1)).take (t.end_.pStr - t.begin.pStr - 1)).length
        = t.end_.pStr - t.begin.pStr - 1 := by
      rw [List.length_take, List.length_drop]
      omega
    rw [List.dropLast_eq_take, hlen, List.take_take]
    have h2 : min (t.end_.pStr - t.begin.pStr - 1 - 1) (t.end_.pStr - t.begin.pStr - 1)
        = t.end_.pStr - t.begin.pStr - 2 := by omega
    rw [h2]
  · intro hty
    rw [Token.text, Token.textBegin, Token.textEnd, if_neg hty, if_neg hty, Token.rawSpan]
    by_cases hlt : t.begin.pStr < t.end_.pStr
    · rw [if_pos hlt]
    · rw [if_neg hlt]
      have : t.end_.pStr - t.begin.pStr = 0 := by omega
      rw [this, List.take_zero]

/-- Claim C6 witness: over the buffer `"hi" ok`, the string token spanning
the quoted literal strips the quotes and the identifier token returns its
raw span. -/
theorem c6_witness :
    (Token.text "\x22hi\x22 ok".toList
      { begin := ⟨0, 0, 0⟩, end_ := ⟨0, 4, 4⟩, type := TokenType.String, number := 0 }
      = ['h', 'i'])
    ∧ (Token.text "\x22hi\x22 ok".toList
      { begin := ⟨0, 5, 5⟩, end_ := ⟨0, 7, 7⟩, type := TokenType.Identifier, number := 0 }
      = ['o', 'k']) := by
  constructor
  · have h := (c6_text_strips_quotes "\x22hi\x22 ok".toList
      { begin := ⟨0, 0, 0⟩, end_ := ⟨0, 4, 4⟩, type := TokenType.String, number := 0 }).1
      rfl (by decide) (by decide)
    rw [h]
    decide
  · have h := (c6_text_strips_quotes "\x22hi\x22 ok".toList
      { begin := ⟨0, 5, 5⟩, end_ := ⟨0, 7, 7⟩, type := TokenType.Identifier, number := 0 }).2
      (by decide)
    rw [h]
    decide

/-- Claim C10: for `String`-kind tokens, `text()` is total and never
yields a view longer than the stored span minus the two quote characters;
in particular a span of two characters or shorter (such as the empty
string literal) yields the empty view rather than an inverted span. -/
theorem c10_text_safe_on_short_strings (buf : List Char) (t : Token)
    (h : t.type = TokenType.String) :
    (t.text buf).length ≤ t.size - 2 ∧ (t.size ≤ 2 → t.text buf = []) := by
  rw [Token.text, Token.textBegin, Token.textEnd, if_pos h, if_pos h, Token.size]
  constructor
  · by_cases hlt : t.begin.pStr + 1 < t.end_.pStr - 1
    · rw [if_pos hlt, List.length_take]
      omega
    · rw [if_neg hlt]
      simp
  · intro hsz
    have : ¬ t.begin.pStr + 1 < t.end_.pStr - 1 := by omega
    rw [if_neg this]

/-- Claim C10 witness: the empty string literal (a two-character span over
the buffer) yields the empty view, of length at most span minus two. -/
theorem c10_witness :
    (Token.text ['\x22', '\x22']
      { begin := ⟨0, 0, 0⟩, end_ := ⟨0, 2, 2⟩, type := TokenType.String, number := 0 }).length
      ≤ Token.size
        { begin := ⟨0, 0, 0⟩, end_ := ⟨0, 2, 2⟩, type := TokenType.String, number := 0 } - 2
    ∧ (Token.text ['\x22', '\x22']
      { begin := ⟨0, 0, 0⟩, end_ := ⟨0, 2, 2⟩, type := TokenType.String, number := 0 }) = [] := by
  have h := c10_text_safe_on_short_strings ['\x22', '\x22']
    { begin := ⟨0, 0, 0⟩, end_ := ⟨0, 2, 2⟩, type := TokenType.String, number := 0 } rfl
  exact ⟨h.1, h.2 (by decide)⟩

/-- Claim C1 (evidence of the divergence): in the sample document
`map { X = 5 }` the value `X` has a first data token of kind `Number` —
per the spec's coercion rule an incompatible kind for a short-string
request — yet `getSingleSmallStringValue` returns that token's text `5`
rather than the caller-supplied default, contradicting the claim and the
function's own comment ("Returns a default value if not found or if the
wrong type"). -/
theorem c1_smallStringValue_wrong_kind_returns_text :
    Block.getSingleSmallStringValue c1buf c1arena c1blk ['X'] ['d', 'f', 'l', 't']
      = some ['5']
    ∧ (c1arena[2]?).map (fun tk => tk.token.type) = some TokenType.Number
    ∧ (['5'] : List Char) ≠ ['d', 'f', 'l', 't'] := by
  decide

/-- Claim C2 counterexample: for a concrete block whose type token spans
columns 0-3, `getRequiredHeaderToken` at an out-of-range index raises the
fatal error citing the type token's END location (line 0, column 3), which
differs from the block's start location (line 0, column 0) that the
`error(const Block&)` overload defines and that the claim asserts. -/
theorem c2_counterexample_error_at_type_end :
    Block.getRequiredHeaderToken c2arena c2blk 0
      = some (Except.error { line := 0, column := 3, pStr := 3 })
    ∧ Block.startLoc c2arena c2blk = some { line := 0, column := 0, pStr := 0 }
    ∧ ({ line := 0, column := 3, pStr := 3 } : TextLoc)
      ≠ { line := 0, column := 0, pStr := 0 } :=
  ⟨rfl, rfl, by decide⟩

/-- Claim C2 (amended): for every block and every index at or beyond the
header-token count, `getRequiredHeaderToken` raises a fatal error rather
than returning a token, and the error cites the END location of the
block's type token (not the block's start location). -/
theorem c2_required_header_out_of_range_is_fatal (arena : List LinkedToken) (b : Block)
    (tt : LinkedToken) (cnt index : Nat)
    (hwf : linksInRangeB arena (fun tk => tk.pNext) = true)
    (hs : startInRangeB arena b.pHeader = true)
    (hac : acyclicB arena (fun tk => tk.pNext) b.pHeader = true)
    (htt : arena[b.pType]? = some tt)
    (hcnt : b.getHeaderTokenCount arena = some cnt)
    (hidx : cnt ≤ index) :
    b.getRequiredHeaderToken arena index = some (Except.error tt.token.end_) := by
  have hcnt' := getHeaderTokenCount_eq hwf hs hac
  rw [hcnt] at hcnt'
  have hlen : cnt = (b.headerChain arena).length := Option.some.inj hcnt'
  have hwi := getHeaderTokenWithIndex_eq hwf hs hac index
  have hnone : (b.headerChain arena)[index]? = none := List.getElem?_eq_none (by omega)
  rw [hnone] at hwi
  simp only [Block.getRequiredHeaderToken, hwi, Option.some_bind, htt, Option.map_some']

/-- Claim C2 witness: applying the amended theorem to the concrete C2
document (header count 0) at index 5. -/
theorem c2_witness :
    Block.getRequiredHeaderToken c2arena c2blk 5
      = some (Except.error { line := 0, column := 3, pStr := 3 }) :=
  c2_required_header_out_of_range_is_fatal c2arena c2blk c2tt 0 5
    (by decide) (by decide) (by decide) (by decide) (by decide) (by decide)

/-- Claim C3 counterexample: in the sample document `map { Flag }` the
name `Music` is absent, yet `getSingleIntValue("Music", 16777217)` returns
16777216 — the caller's default rounded through the C++ `(float)` argument
conversion (16777217 = 2^24 + 1 is not representable in binary32) — and
not the caller-supplied default itself. -/
theorem c3_counterexample_int_default_rounded :
    Block.getValue c3buf c3arena c3blk ['M', 'u', 's', 'i', 'c'] = some none
    ∧ Block.getSingleIntValue c3buf c3arena c3blk ['M', 'u', 's', 'i', 'c'] 16777217
      = some 16777216
    ∧ (16777216 : Int) ≠ 16777217 := by
  decide

/-- Claim C3 (amended): a value present with an empty data chain (a bare
flag) makes `getSingleNumberValue` return 1 and
`getSingleSmallStringValue` return the caller-supplied default; an absent
name makes `getSingleNumberValue` and `getSingleSmallStringValue` return
exactly the caller-supplied default, while `getSingleIntValue` returns the
default rounded through the C++ `(float)` argument conversion — which is
the default itself exactly when the default is representable in binary32
(in particular whenever its magnitude is below `2 ^ 24`). -/
theorem c3_flag_and_absent_defaults (buf : List Char) (arena : List LinkedToken)
    (b : Block) (name : List Char) (dNum : Rat) (dInt : Int) (dStr : List Char) :
    (∀ vt : LinkedToken, b.getValue buf arena name = some (some vt) →
      vt.pNextData = none →
      b.getSingleNumberValue buf arena name dNum = some 1
      ∧ b.getSingleSmallStringValue buf arena name dStr = some dStr)
    ∧ (b.getValue buf arena name = some none →
      b.getSingleNumberValue buf arena name dNum = some dNum
      ∧ b.getSingleIntValue buf arena name dInt = some (floatOfInt dInt)
      ∧ (dInt.natAbs < 2 ^ 24 →
        b.getSingleIntValue buf arena name dInt = some dInt)
      ∧ b.getSingleSmallStringValue buf arena name dStr = some dStr) := by
  constructor
  · intro vt hv hd
    constructor
    · simp only [Block.getSingleNumberValue, hv, Option.some_bind, hd]
    · simp only [Block.getSingleSmallStringValue, hv, Option.some_bind, hd]
  · intro hv
    refine ⟨?_, ?_, ?_, ?_⟩
    · simp only [Block.getSingleNumberValue, hv, Option.some_bind]
    · simp only [Block.getSingleIntValue, Block.getSingleNumberValue, hv, Option.some_bind,
        Option.map_some', floatTruncToInt_intCast]
    · intro h
      simp only [Block.getSingleIntValue, Block.getSingleNumberValue, hv, Option.some_bind,
        Option.map_some', floatTruncToInt_intCast, floatOfInt_eq_self h]
    · simp only [Block.getSingleSmallStringValue, hv, Option.some_bind]

/-- Claim C3 witness: in the sample document `map { Flag }`, the flag
queried case-insensitively yields 1 (number) and the default (string),
while the absent name `Music` yields the defaults from all three accessors
(the integer default -1 is representable in binary32 and survives the
float round-trip exactly). -/
theorem c3_witness :
    Block.getSingleNumberValue c3buf c3arena c3blk ['F', 'L', 'A', 'G'] 0 = some 1
    ∧ Block.getSingleSmallStringValue c3buf c3arena c3blk ['F', 'L', 'A', 'G'] ['d'] = some ['d']
    ∧ Block.getSingleNumberValue c3buf c3arena c3blk ['M', 'u', 's', 'i', 'c'] 7 = some 7
    ∧ Block.getSingleIntValue c3buf c3arena c3blk ['M', 'u', 's', 'i', 'c'] (-1) = some (-1)
    ∧ Block.getSingleSmallStringValue c3buf c3arena c3blk ['M', 'u', 's', 'i', 'c'] ['d']
      = some ['d'] := by
  have hFlag := (c3_flag_and_absent_defaults c3buf c3arena c3blk ['F', 'L', 'A', 'G']
    0 0 ['d']).1 c3vt (by decide) (by decide)
  have hAbs := (c3_flag_and_absent_defaults c3buf c3arena c3blk ['M', 'u', 's', 'i', 'c']
    7 (-1) ['d']).2 (by decide)
  exact ⟨hFlag.1, hFlag.2, hAbs.1, hAbs.2.2.1 (by decide), hAbs.2.2.2⟩

/-- Claim C4: at an in-range header index (witnessed by the found token),
`getRequiredHeaderNumber` returns the stored numeric value for a Number
token, 1 for BooleanTrue, 0 for BooleanFalse, and raises a fatal error for
every other token kind; `getRequiredHeaderSmallString` returns the token's
text (quotes stripped by `text()`) for String and Identifier tokens. -/
theorem c4_required_header_coercion (buf : List Char) (arena : List LinkedToken)
    (b : Block) (index : Nat) (ltok tt : LinkedToken)
    (hidx : b.getHeaderTokenWithIndex arena index = some (some ltok))
    (htt : arena[b.pType]? = some tt) :
    (ltok.token.type = TokenType.Number →
      b.getRequiredHeaderNumber arena index = some (Except.ok ltok.token.number))
    ∧ (ltok.token.type = TokenType.True →
      b.getRequiredHeaderNumber arena index = some (Except.ok 1))
    ∧ (ltok.token.type = TokenType.False →
      b.getRequiredHeaderNumber arena index = some (Except.ok 0))
    ∧ (ltok.token.type ≠ TokenType.Number → ltok.token.type ≠ TokenType.True →
      ltok.token.type ≠ TokenType.False →
      b.getRequiredHeaderNumber arena index = some (Except.error tt.token.end_))
    ∧ ((ltok.token.type = TokenType.String ∨ ltok.token.type = TokenType.Identifier) →
      b.getRequiredHeaderSmallString buf arena index
        = some (Except.ok (ltok.token.text buf))) := by
  have hreq : b.getRequiredHeaderToken arena index = some (Except.ok ltok) := by
    simp only [Block.getRequiredHeaderToken, hidx, Option.some_bind]
  refine ⟨?_, ?_, ?_, ?_, ?_⟩
  · intro h
    simp only [Block.getRequiredHeaderNumber, hreq, Option.some_bind, h]
  · intro h
    simp only [Block.getRequiredHeaderNumber, hreq, Option.some_bind, h]
  · intro h
    simp only [Block.getRequiredHeaderNumber, hreq, Option.some_bind, h]
  · intro h1 h2 h3
    simp only [Block.getRequiredHeaderNumber, hreq, Option.some_bind]
    cases hty : ltok.token.type <;>
      first
      | exact absurd hty h1
      | exact absurd hty h2
      | exact absurd hty h3
      | simp [htt]
  · intro _
    simp only [Block.getRequiredHeaderSmallString, hreq, Option.map_some']

/-- Claim C4 witness: in the sample header `5 "E1M1" true`, index 0 coerces
to the number 5, index 1 yields the quote-stripped string `E1M1`, and
index 2 (BooleanTrue) coerces to the number 1. -/
theorem c4_witness :
    Block.getRequiredHeaderNumber c4arena c4blk 0 = some (Except.ok 5)
    ∧ Block.getRequiredHeaderSmallString c4buf c4arena c4blk 1
      = some (Except.ok ['E', '1', 'M', '1'])
    ∧ Block.getRequiredHeaderNumber c4arena c4blk 2 = some (Except.ok 1) := by
  have h0 := (c4_required_header_coercion c4buf c4arena c4blk 0
    { token := mkTok 4 5 TokenType.Number 5, pNext := some 2, pNextData := none }
    c2tt (by decide) (by decide)).1 (by decide)
  have h1 := (c4_required_header_coercion c4buf c4arena c4blk 1
    { token := mkTok 6 12 TokenType.String 0, pNext := some 3, pNextData := none }
    c2tt (by decide) (by decide)).2.2.2.2 (Or.inl (by decide))
  have h2 := (c4_required_header_coercion c4buf c4arena c4blk 2
    { token := mkTok 13 17 TokenType.True 0, pNext := none, pNextData := none }
    c2tt (by decide) (by decide)).2.1 (by decide)
  refine ⟨h0, ?_, h2⟩
  rw [h1]
  rfl

/-- Claim C7: the single-value accessors consult only the first data token
of a multi-entry data chain: the result is a function of that token alone
(third conjunct) and is identical to the result over the arena in which
the data chain is truncated to its first entry (first two conjuncts). -/
theorem c7_single_value_uses_first_data_token (buf : List Char)
    (arena : List LinkedToken) (b : Block) (name : List Char) (dNum : Rat)
    (dStr : List Char) (vt dt : LinkedToken) (j : Nat)
    (h1 : b.getValue buf arena name = some (some vt))
    (h2 : vt.pNextData = some j)
    (h3 : arena[j]? = some dt)
    (h4 : b.getValue buf (arena.set j { dt with pNextData := none }) name
      = some (some vt)) :
    b.getSingleNumberValue buf arena name dNum
      = b.getSingleNumberValue buf (arena.set j { dt with pNextData := none }) name dNum
    ∧ b.getSingleSmallStringValue buf arena name dStr
      = b.getSingleSmallStringValue buf (arena.set j { dt with pNextData := none }) name dStr
    ∧ b.getSingleNumberValue buf arena name dNum = some (match dt.token.type with
        | TokenType.Number => dt.token.number
        | TokenType.True => 1
        | TokenType.False => 0
        | _ => dNum) := by
  have hj : j < arena.length := (List.getElem?_eq_some_iff.mp h3).1
  have hset : (arena.set j { dt with pNextData := none })[j]?
      = some { dt with pNextData := none } := List.getElem?_set_self hj
  refine ⟨?_, ?_, ?_⟩
  · simp only [Block.getSingleNumberValue, h1, h4, Option.some_bind, h2, h3, hset,
      Option.map_some']
  · simp only [Block.getSingleSmallStringValue, h1, h4, Option.some_bind, h2, h3, hset,
      Option.map_some']
  · simp only [Block.getSingleNumberValue, h1, Option.some_bind, h2, h3, Option.map_some']

/-- Claim C7 witness: in the sample document `map { X = 3, Y }`, the value
of `X` is the number 3 both over the original two-entry data chain and
over the chain truncated to its first entry. -/
theorem c7_witness :
    Block.getSingleNumberValue c7buf c7arena c7blk ['X'] 7 = some 3
    ∧ Block.getSingleNumberValue c7buf (c7arena.set 2 c7dtTrunc) c7blk ['X'] 7 = some 3 := by
  have h := c7_single_value_uses_first_data_token c7buf c7arena c7blk ['X'] 7 ['d']
    c7vt c7dt 2 (by decide) (by decide) (by decide) (by decide)
  exact ⟨h.2.2, h.1 ▸ h.2.2⟩

/-- Claim C8: for a block with an in-range, acyclic header chain,
`getHeaderTokenCount` is the number of chain entries, and
`getHeaderTokenWithIndex` returns the i-th chain entry for every in-range
index and the null result (never an error) for every out-of-range index. -/
theorem c8_header_count_and_index (arena : List LinkedToken) (b : Block)
    (hwf : linksInRangeB arena (fun tk => tk.pNext) = true)
    (hs : startInRangeB arena b.pHeader = true)
    (hac : acyclicB arena (fun tk => tk.pNext) b.pHeader = true) :
    b.getHeaderTokenCount arena = some (b.headerChain arena).length
    ∧ (∀ (i : Nat) (hi : i < (b.headerChain arena).length),
      b.getHeaderTokenWithIndex arena i = some (some ((b.headerChain arena).get ⟨i, hi⟩)))
    ∧ (∀ i : Nat, (b.headerChain arena).length ≤ i →
      b.getHeaderTokenWithIndex arena i = some none) := by
  refine ⟨getHeaderTokenCount_eq hwf hs hac, ?_, ?_⟩
  · intro i hi
    rw [getHeaderTokenWithIndex_eq hwf hs hac i, List.getElem?_eq_getElem hi]
    simp [List.get_eq_getElem]
  · intro i hi
    rw [getHeaderTokenWithIndex_eq hwf hs hac i, List.getElem?_eq_none hi]

/-- Claim C8 witness: the sample two-token header chain has count 2, entry
1 is the second chain token, and index 5 yields the null result. -/
theorem c8_witness :
    Block.getHeaderTokenCount c8arena c8blk = some 2
    ∧ Block.getHeaderTokenWithIndex c8arena c8blk 1
      = some (some { token := mkTok 6 7 TokenType.Number 2, pNext := none, pNextData := none })
    ∧ Block.getHeaderTokenWithIndex c8arena c8blk 5 = some none := by
  have h := c8_header_count_and_index c8arena c8blk (by decide) (by decide) (by decide)
  refine ⟨h.1.trans (by decide), ?_, h.2.2 5 (by decide)⟩
  have h1 := h.2.1 1 (by decide)
  rw [h1]
  decide

/-- Claim C9: on a well-linked arena, if the chain from a start link is
acyclic then the chain-walking operations terminate — `numTokensAhead`,
`numDataTokensAhead`, `getHeaderTokenWithIndex` and `getValue` produce a
result rather than exhausting their fuel — and the walk visits each chain
entry at most once (the visited index list has no duplicates). -/
theorem c9_chain_walks_terminate (arena : List LinkedToken) (buf : List Char)
    (t : LinkedToken) (b : Block) (index : Nat) (name : List Char) :
    ((linksInRangeB arena (fun tk => tk.pNext) = true) →
      (startInRangeB arena t.pNext = true) →
      (acyclicB arena (fun tk => tk.pNext) t.pNext = true) →
      (t.numTokensAhead arena).isSome = true
      ∧ (chainNodes arena (fun tk => tk.pNext) (arena.length + 1) t.pNext).Nodup)
    ∧ ((linksInRangeB arena (fun tk => tk.pNextData) = true) →
      (startInRangeB arena t.pNextData = true) →
      (acyclicB arena (fun tk => tk.pNextData) t.pNextData = true) →
      (t.numDataTokensAhead arena).isSome = true
      ∧ (chainNodes arena (fun tk => tk.pNextData) (arena.length + 1) t.pNextData).Nodup)
    ∧ ((linksInRangeB arena (fun tk => tk.pNext) = true) →
      (startInRangeB arena b.pHeader = true) →
      (acyclicB arena (fun tk => tk.pNext) b.pHeader = true) →
      (b.getHeaderTokenWithIndex arena index).isSome = true)
    ∧ ((linksInRangeB arena (fun tk => tk.pNext) = true) →
      (startInRangeB arena b.pValues = true) →
      (acyclicB arena (fun tk => tk.pNext) b.pValues = true) →
      (b.getValue buf arena name).isSome = true) := by
  refine ⟨fun hwf hs hac => ⟨?_, chainNodes_nodup hwf hs hac⟩,
    fun hwf hs hac => ⟨?_, chainNodes_nodup hwf hs hac⟩,
    fun hwf hs hac => ?_, fun hwf hs hac => ?_⟩
  · obtain ⟨n, hn, hiter⟩ := chain_reaches_none hwf hs hac
    have h := countChainAux_eq hwf (arena.length + 1) t.pNext n
      (fun i hi => startInRange_spec hs hi) (by omega) hiter
    rw [LinkedToken.numTokensAhead, h]
    rfl
  · obtain ⟨n, hn, hiter⟩ := chain_reaches_none hwf hs hac
    have h := countChainAux_eq hwf (arena.length + 1) t.pNextData n
      (fun i hi => startInRange_spec hs hi) (by omega) hiter
    rw [LinkedToken.numDataTokensAhead, h]
    rfl
  · rw [getHeaderTokenWithIndex_eq hwf hs hac index]
    rfl
  · rw [getValue_eq hwf hs hac]
    rfl

/-- Claim C9 witness: on the concrete three-token arena with acyclic
`pNext` chain (0, 1) and `pNextData` chain (0, 2), all four walks return a
result and the visited index lists are duplicate-free. -/
theorem c9_witness :
    (LinkedToken.numTokensAhead c9arena c9tok).isSome = true
    ∧ (chainNodes c9arena (fun tk => tk.pNext) (c9arena.length + 1) c9tok.pNext).Nodup
    ∧ (LinkedToken.numDataTokensAhead c9arena c9tok).isSome = true
    ∧ (Block.getHeaderTokenWithIndex c9arena c9blk 0).isSome = true
    ∧ (Block.getValue c9buf c9arena c9blk ['m', 'a', 'p']).isSome = true := by
  have h := c9_chain_walks_terminate c9arena c9buf c9tok c9blk 0 ['m', 'a', 'p']
  have h1 := h.1 (by decide) (by decide) (by decide)
  exact ⟨h1.1, h1.2, (h.2.1 (by decide) (by decide) (by decide)).1,
    h.2.2.1 (by decide) (by decide) (by decide),
    h.2.2.2 (by decide) (by decide) (by decide)⟩

end MapInfo
